import Mathlib

/-!
# Aevum-Bond: shallow embedding and verification of the specification claims

This file embeds, in Lean 4, the parts of the Aevum-Bond Rust code base that
the specification claims C1..C10 talk about, and settles each claim against
the embedding.

Modelling conventions, used throughout:

* Machine integers (`u8`, `u32`, `u64`, `u128`, `usize`) are modelled as `Nat`;
  where the Rust code can overflow, the reduction `% 2 ^ w` (release-mode
  wrap-around) or the explicit `checked_add` test of the source is applied.
  `i64` is modelled as `Int` reduced to the two's-complement range where the
  source can wrap.
* `Hash256` (a 32-byte value) is the list of its bytes, most significant
  first, exactly the `[u8; 32]` of `shared/src/hash.rs`.
* `std::collections::HashMap` / `BTreeMap` are modelled as association lists;
  `insert` replaces the entry of an existing key, `remove` deletes it.  The
  list order stands for the map's iteration order (for a `HashMap` that order
  is arbitrary, and no theorem below depends on it).
* External crates that the repository only calls (the `sha3` Keccak-256 /
  SHA3-256 permutations and `serde_json` serialization) are not part of the
  repository's source; the derived hash functions (`Hash256::keccak256` of a
  serialized value, `Sha3_256` of a byte string) enter the embedding as
  explicit function parameters.  No theorem below depends on their values.
* Error enums are embedded constructor-for-constructor; the `String` payloads
  carried by the Rust errors are dropped, since no code path inspects them.
* Rust's stable `sort_by` / `sort_by_key` is modelled by `List.insertionSort`:
  a stable sort's output is uniquely determined by the comparator and the
  input order, so any stable sort gives the very same function.
-/

namespace AevumBond

/-! ## shared/src/error.rs and bond-core/src/error.rs -/

/-- `shared::BlockchainError` (string payloads dropped). -/
inductive BlockchainError where
  | InvalidTransaction
  | InvalidBlock
  | InvalidHash
  | InsufficientDifficulty
  | NonceNotFound
  | UtxoNotFound
  | InsufficientFunds
  | InvalidSignature
  | InvalidKeySize
  | CryptographicError
  | SerializationError
  | IoError
  | NetworkError
  deriving DecidableEq, Repr

/-- `bond_core::error::BondError` (string payloads dropped). -/
inductive BondError where
  | ScriptError
  | TransactionNotFound
  | InvalidTransaction
  | InvalidBlock
  | CryptoError
  | ValidationError
  | SerializationError
  | Other
  deriving DecidableEq, Repr

/-! ## shared/src/hash.rs -/

/-- `shared::Hash256`: the 32 bytes of the hash, most significant first.
Well-formedness (`length = 32`, every byte `< 256`) is carried as a
hypothesis where a theorem needs it. -/
abbrev Hash256 : Type := List Nat

/-- `Hash256::zero()`. -/
def Hash256.zero : Hash256 := List.replicate 32 0

/-- `u8::leading_zeros` for a byte `b < 256`: 8 for the zero byte, otherwise
`7 - log2 b` (the number of high-order zero bits). -/
def byteLeadingZeros (b : Nat) : Nat :=
  if b = 0 then 8 else 7 - Nat.log2 b

/-- `Hash256::leading_zeros`: the source walks the bytes, adds 8 per zero
byte, and on the first non-zero byte adds its `leading_zeros` and breaks. -/
def Hash256.leading_zeros : Hash256 → Nat
  | [] => 0
  | b :: rest => if b = 0 then 8 + Hash256.leading_zeros rest else byteLeadingZeros b

/-- `Hash256::meets_difficulty`: `self.leading_zeros() >= difficulty`. -/
def Hash256.meets_difficulty (h : Hash256) (difficulty : Nat) : Bool :=
  difficulty ≤ h.leading_zeros

/-- A hash all of whose bytes are zero contributes 8 bits per byte. -/
theorem leading_zeros_of_all_zero (h : Hash256) (hz : ∀ b ∈ h, b = 0) :
    h.leading_zeros = 8 * h.length := by
  induction h with
  | nil => simp [Hash256.leading_zeros]
  | cons b rest ih =>
      have hb : b = 0 := hz b (List.mem_cons_self b rest)
      have hrest : ∀ x ∈ rest, x = 0 := fun x hx => hz x (List.mem_cons_of_mem b hx)
      simp [Hash256.leading_zeros, hb, ih hrest, List.length_cons, Nat.mul_succ,
        Nat.add_comm]

/-- A hash with some non-zero byte has strictly fewer leading zero bits than
`8 * length`. -/
theorem leading_zeros_lt_of_ne_zero (h : Hash256) (hnz : ∃ b ∈ h, b ≠ 0) :
    h.leading_zeros < 8 * h.length := by
  induction h with
  | nil => rcases hnz with ⟨b, hb, _⟩; cases hb
  | cons b rest ih =>
      by_cases hb : b = 0
      · rcases hnz with ⟨x, hx, hxne⟩
        rcases List.mem_cons.mp hx with rfl | hxr
        · exact absurd hb hxne
        · have := ih ⟨x, hxr, hxne⟩
          simp only [Hash256.leading_zeros, hb, if_true, List.length_cons,
            Nat.mul_succ]
          omega
      · have hlt : byteLeadingZeros b < 8 := by
          unfold byteLeadingZeros
          simp only [hb, if_false]
          omega
        simp only [Hash256.leading_zeros, hb, if_false, List.length_cons,
          Nat.mul_succ]
        have : 0 < 8 * rest.length + 8 := by omega
        omega

/-- C7: for every well-formed 32-byte hash `h` and every difficulty `d`,
`meets_difficulty h d` is true iff the leading-zero-bit count of the
big-endian byte representation (8 per leading zero byte, plus the
`leading_zeros` of the first non-zero byte) is at least `d`; consequently
`meets_difficulty h 0` holds for every `h`, and `meets_difficulty h 256`
holds only for the all-zero hash. -/
theorem C7_meets_difficulty (h : Hash256) (hlen : h.length = 32)
    (hbytes : ∀ b ∈ h, b < 256) :
    (∀ d, h.meets_difficulty d = true ↔ d ≤ h.leading_zeros) ∧
    h.meets_difficulty 0 = true ∧
    (h.meets_difficulty 256 = true ↔ h = Hash256.zero) := by
  refine ⟨fun d => by simp [Hash256.meets_difficulty], ?_, ?_⟩
  · simp [Hash256.meets_difficulty]
  · constructor
    · intro hm
      have h256 : 256 ≤ h.leading_zeros := by
        simpa [Hash256.meets_difficulty] using hm
      by_contra hne
      have hnz : ∃ b ∈ h, b ≠ 0 := by
        by_contra hall
        push_neg at hall
        exact hne (by
          have := List.eq_replicate_iff.mpr ⟨hlen, hall⟩
          simpa [Hash256.zero] using this)
      have := leading_zeros_lt_of_ne_zero h hnz
      rw [hlen] at this
      omega
    · intro hz
      subst hz
      decide

/-- Witness for C7: the theorem applied at the all-zero hash. -/
theorem C7_meets_difficulty_witness :
    Hash256.zero.meets_difficulty 0 = true ∧
    (Hash256.zero.meets_difficulty 256 = true ↔ Hash256.zero = Hash256.zero) :=
  (C7_meets_difficulty Hash256.zero (by decide) (by decide)).2

/-! ## bond-core/src/transaction.rs — data model -/

/-- `bond_core::utxo::OutPoint`. -/
structure OutPoint where
  txid : Hash256
  vout : Nat
  deriving DecidableEq, Repr

/-- `OutPoint::new`. -/
def OutPoint.new (txid : Hash256) (vout : Nat) : OutPoint := ⟨txid, vout⟩

/-- `bond_core::transaction::TxInput`. -/
structure TxInput where
  previous_output : OutPoint
  script_sig : List Nat
  sequence : Nat
  deriving DecidableEq, Repr

/-- `TxInput::new`. -/
def TxInput.new (previous_output : OutPoint) (script_sig : List Nat)
    (sequence : Nat) : TxInput :=
  ⟨previous_output, script_sig, sequence⟩

/-- `TxInput::is_coinbase`: the previous output is the sentinel
`(Hash256::zero(), 0xFFFF_FFFF)`. -/
def TxInput.is_coinbase (i : TxInput) : Bool :=
  i.previous_output.txid == Hash256.zero && i.previous_output.vout == 0xFFFFFFFF

/-- `bond_core::transaction::TxOutput` (`value` is a `u64`). -/
structure TxOutput where
  value : Nat
  script_pubkey : List Nat
  deriving DecidableEq, Repr

/-- `TxOutput::new`. -/
def TxOutput.new (value : Nat) (script_pubkey : List Nat) : TxOutput :=
  ⟨value, script_pubkey⟩

/-- `bond_core::transaction::Transaction`. -/
structure Transaction where
  version : Nat
  inputs : List TxInput
  outputs : List TxOutput
  lock_time : Nat
  deriving DecidableEq, Repr

/-- `Transaction::new`. -/
def Transaction.new (version : Nat) (inputs : List TxInput)
    (outputs : List TxOutput) (lock_time : Nat) : Transaction :=
  ⟨version, inputs, outputs, lock_time⟩

/-- Little-endian byte decoding, `u64::from_le_bytes`. -/
def u64FromLeBytes (bytes : List Nat) : Nat :=
  match bytes with
  | [] => 0
  | b :: rest => b + 256 * u64FromLeBytes rest

/-- Little-endian byte encoding of a `u64`, `u64::to_le_bytes`. -/
def u64ToLeBytes (n : Nat) : List Nat :=
  (List.range 8).map fun i => n / 256 ^ i % 256

/-- `Transaction::coinbase`: one sentinel input whose `script_sig` is the
little-endian block height, one output paying the reward. -/
def Transaction.coinbase (block_height : Nat) (reward : Nat)
    (script_pubkey : List Nat) : Transaction :=
  let script_sig := u64ToLeBytes block_height
  Transaction.new 1
    [{ previous_output := { txid := Hash256.zero, vout := 0xFFFFFFFF },
       script_sig := script_sig, sequence := 0xFFFFFFFF }]
    [TxOutput.new reward script_pubkey] 0

/-- `Transaction::is_coinbase`: exactly one input and it is the sentinel. -/
def Transaction.is_coinbase (tx : Transaction) : Bool :=
  tx.inputs.length == 1 &&
    (match tx.inputs with
     | i :: _ => i.is_coinbase
     | [] => false)

/-- `u64::checked_add`: `none` on overflow past `2 ^ 64 - 1`. -/
def checkedAddU64 (a b : Nat) : Option Nat :=
  if a + b < 2 ^ 64 then some (a + b) else none

/-- The output-summing loop of `Transaction::total_output_value`. -/
def sumOutputValues : List TxOutput → Nat → Except BlockchainError Nat
  | [], total => .ok total
  | o :: rest, total =>
      match checkedAddU64 total o.value with
      | some t => sumOutputValues rest t
      | none => .error .InvalidTransaction

/-- `Transaction::total_output_value`: sum of output values with
`checked_add`, `InvalidTransaction` on overflow. -/
def Transaction.total_output_value (tx : Transaction) :
    Except BlockchainError Nat :=
  sumOutputValues tx.outputs 0

/-! ## bond-core/src/utxo.rs -/

/-- `bond_core::utxo::Utxo`: the source stores only the original output and
the creation height — it does *not* store the txid/vout it was created
from. -/
structure Utxo where
  output : TxOutput
  height : Nat
  deriving DecidableEq, Repr

/-- `Utxo::new`: note that, exactly as in the source, the `txid` and `vout`
arguments are dropped on the floor — the struct has no field for them. -/
def Utxo.new (txid : Hash256) (vout : Nat) (value : Nat)
    (script_pubkey : List Nat) (height : Nat) : Utxo :=
  { output := { value := value, script_pubkey := script_pubkey },
    height := height }

/-- `Utxo::outpoint`: the source is an acknowledged placeholder that always
returns `(Hash256::zero(), 0)`, whatever the UTXO. -/
def Utxo.outpoint (_ : Utxo) : OutPoint :=
  { txid := Hash256.zero, vout := 0 }

/-- `Utxo::is_mature`: a coinbase UTXO needs
`current_height >= height + 100`; any other UTXO is always mature. -/
def Utxo.is_mature (u : Utxo) (current_height : Nat) (is_cb : Bool) : Bool :=
  if is_cb then u.height + 100 ≤ current_height else true

/-- `bond_core::utxo::UtxoSet`: the `HashMap<OutPoint, Utxo>` as an
association list (keys unique; order = iteration order, never observed). -/
structure UtxoSet where
  utxos : List (OutPoint × Utxo)
  deriving DecidableEq, Repr

/-- `UtxoSet::new`. -/
def UtxoSet.new : UtxoSet := ⟨[]⟩

/-- `HashMap::insert`: replace the entry of an existing key, else append. -/
def insertEntry {α β : Type} [DecidableEq α] :
    List (α × β) → α → β → List (α × β)
  | [], k, v => [(k, v)]
  | (k0, v0) :: rest, k, v =>
      if k0 = k then (k, v) :: rest else (k0, v0) :: insertEntry rest k v

/-- `UtxoSet::add`: insert under an explicitly given outpoint. -/
def UtxoSet.add (s : UtxoSet) (outpoint : OutPoint) (utxo : Utxo) : UtxoSet :=
  ⟨insertEntry s.utxos outpoint utxo⟩

/-- `UtxoSet::add_utxo` (the method `Block::apply_to_utxo_set` uses): insert
under `utxo.outpoint()` — which the placeholder pins to `(zero, 0)`. -/
def UtxoSet.add_utxo (s : UtxoSet) (utxo : Utxo) : UtxoSet :=
  ⟨insertEntry s.utxos utxo.outpoint utxo⟩

/-- `UtxoSet::remove_utxo` (the resulting set; the returned `Option` of the
source is never used by the code under study). -/
def UtxoSet.remove_utxo (s : UtxoSet) (outpoint : OutPoint) : UtxoSet :=
  ⟨s.utxos.eraseP fun p => decide (p.1 = outpoint)⟩

/-- `UtxoSet::get` / `UtxoSet::get_utxo`. -/
def UtxoSet.get (s : UtxoSet) (outpoint : OutPoint) : Option Utxo :=
  (s.utxos.find? fun p => decide (p.1 = outpoint)).map Prod.snd

/-- `UtxoSet::contains`. -/
def UtxoSet.contains (s : UtxoSet) (outpoint : OutPoint) : Bool :=
  s.utxos.any fun p => decide (p.1 = outpoint)

/-- `UtxoSet::len`. -/
def UtxoSet.len (s : UtxoSet) : Nat := s.utxos.length

/-! ## bond-core/src/transaction.rs — validation -/

/-- The input-summing loop of `Transaction::total_input_value`: coinbase
inputs are skipped, a missing UTXO is `UtxoNotFound`, the values are added
with `checked_add`. -/
def sumInputValues (utxo_set : UtxoSet) :
    List TxInput → Nat → Except BlockchainError Nat
  | [], total => .ok total
  | input :: rest, total =>
      if input.is_coinbase then sumInputValues utxo_set rest total
      else
        match utxo_set.get input.previous_output with
        | none => .error .UtxoNotFound
        | some utxo =>
            match checkedAddU64 total utxo.output.value with
            | some t => sumInputValues utxo_set rest t
            | none => .error .InvalidTransaction

/-- `Transaction::total_input_value`. -/
def Transaction.total_input_value (tx : Transaction) (utxo_set : UtxoSet) :
    Except BlockchainError Nat :=
  sumInputValues utxo_set tx.inputs 0

/-- `Transaction::validate_basic`: non-empty inputs and outputs, no output
value overflow, no zero-value output, no coinbase input inside a
non-coinbase transaction, and a coinbase transaction has exactly one
input. -/
def Transaction.validate_basic (tx : Transaction) :
    Except BlockchainError Unit := do
  if tx.inputs.isEmpty || tx.outputs.isEmpty then
    throw .InvalidTransaction
  let _ ← tx.total_output_value
  if tx.outputs.any fun o => o.value == 0 then
    throw .InvalidTransaction
  if !tx.is_coinbase && tx.inputs.any TxInput.is_coinbase then
    throw .InvalidTransaction
  if tx.is_coinbase && !(tx.inputs.length == 1) then
    throw .InvalidTransaction
  return ()

/-! ## bond-core/src/block.rs -/

/-- `bond_core::block::Block`.  The header (`version`, `previous_hash`,
`merkle_root`, `timestamp`, `difficulty`, `nonce`) is omitted: neither
`Block::height` nor `Block::apply_to_utxo_set` — the operations the claims
are about — reads it. -/
structure Block where
  transactions : List Transaction
  deriving DecidableEq, Repr

/-- `Block::height`: the block height is decoded from the first 8 bytes
(little-endian `u64`) of the coinbase input's `script_sig`. -/
def Block.height (b : Block) : Except BlockchainError Nat :=
  match b.transactions with
  | [] => .error .InvalidBlock
  | tx0 :: _ =>
      if !tx0.is_coinbase then .error .InvalidBlock
      else
        match tx0.inputs with
        | [] => .error .InvalidBlock
        | inp :: _ =>
            if inp.script_sig.length < 8 then .error .InvalidBlock
            else .ok (u64FromLeBytes (inp.script_sig.take 8))

/-- The input-removal loop of `Block::apply_to_utxo_set`: each input's
referenced outpoint must be present (`UtxoNotFound` otherwise) and is
removed. -/
def removeSpentInputs : UtxoSet → List TxInput → Except BlockchainError UtxoSet
  | s, [] => .ok s
  | s, input :: rest =>
      if !s.contains input.previous_output then .error .UtxoNotFound
      else removeSpentInputs (s.remove_utxo input.previous_output) rest

/-- The output-insertion loop of `Block::apply_to_utxo_set`: the `i`-th
output becomes `Utxo::new(txid, i, value, script_pubkey, block_height)`
added through `UtxoSet::add_utxo`; an output index beyond `u32::MAX` is an
overflow error. -/
def insertNewOutputs (txid : Hash256) (block_height : Nat) :
    UtxoSet → Nat → List TxOutput → Except BlockchainError UtxoSet
  | s, _, [] => .ok s
  | s, idx, output :: rest =>
      if idx ≤ 0xFFFFFFFF then
        insertNewOutputs txid block_height
          (s.add_utxo (Utxo.new txid idx output.value output.script_pubkey
            block_height))
          (idx + 1) rest
      else .error .InvalidBlock

/-- The per-transaction body of `Block::apply_to_utxo_set`. -/
def applyTxToUtxoSet (txHash : Transaction → Hash256) (block_height : Nat)
    (s : UtxoSet) (tx : Transaction) : Except BlockchainError UtxoSet := do
  let txid := txHash tx
  let s1 ← if tx.is_coinbase then pure s else removeSpentInputs s tx.inputs
  insertNewOutputs txid block_height s1 0 tx.outputs

/-- The transaction loop of `Block::apply_to_utxo_set`. -/
def applyTxsToUtxoSet (txHash : Transaction → Hash256) (block_height : Nat) :
    UtxoSet → List Transaction → Except BlockchainError UtxoSet
  | s, [] => .ok s
  | s, tx :: rest => do
      let s1 ← applyTxToUtxoSet txHash block_height s tx
      applyTxsToUtxoSet txHash block_height s1 rest

/-- `Block::apply_to_utxo_set`.  `txHash` stands for `Transaction::hash`
(Keccak-256 of the `serde_json` serialization, both external crates). -/
def Block.apply_to_utxo_set (txHash : Transaction → Hash256) (b : Block)
    (utxo_set : UtxoSet) : Except BlockchainError UtxoSet := do
  let block_height ← b.height
  applyTxsToUtxoSet txHash block_height utxo_set b.transactions

/-! ## bond-core/src/blockchain.rs — transaction validation -/

/-- The input-presence loop of `Blockchain::validate_transaction`. -/
def allInputsPresent (utxo_set : UtxoSet) : List TxInput → Bool
  | [] => true
  | input :: rest =>
      utxo_set.contains input.previous_output && allInputsPresent utxo_set rest

/-- `Blockchain::validate_transaction` (it reads only `self.utxo_set`, which
is passed explicitly): basic validation, every input's outpoint present in
the UTXO set, and total input value at least total output value.  Note the
source performs no coinbase-maturity check: `Utxo::is_mature` is never
called here. -/
def Blockchain.validate_transaction (utxo_set : UtxoSet) (tx : Transaction) :
    Except BlockchainError Unit := do
  tx.validate_basic
  if !allInputsPresent utxo_set tx.inputs then
    throw .UtxoNotFound
  let input_value ← tx.total_input_value utxo_set
  let output_value ← tx.total_output_value
  if input_value < output_value then
    throw .InsufficientFunds
  return ()

/-! ## C1 and C2 -/

/-- Equality of `Except` values is decidable when it is on both sides. -/
instance {ε α : Type} [DecidableEq ε] [DecidableEq α] :
    DecidableEq (Except ε α) := fun a b =>
  match a, b with
  | .ok x, .ok y =>
      if h : x = y then isTrue (by rw [h]) else isFalse (by
        intro hc; cases hc; exact h rfl)
  | .error x, .error y =>
      if h : x = y then isTrue (by rw [h]) else isFalse (by
        intro hc; cases hc; exact h rfl)
  | .ok _, .error _ => isFalse (by intro hc; cases hc)
  | .error _, .ok _ => isFalse (by intro hc; cases hc)

/-- A concrete non-zero 32-byte hash. -/
def oneHash : Hash256 := 1 :: List.replicate 31 0

/-- A stand-in for `Transaction::hash` that, like the real Keccak-256 of a
serialized transaction, differs from the all-zero hash. -/
def txHashOne : Transaction → Hash256 := fun _ => oneHash

/-- A coinbase transaction at height 0 with two outputs (30 and 70 Elos). -/
def coinbaseTwoOutputs : Transaction :=
  Transaction.new 1
    [{ previous_output := { txid := Hash256.zero, vout := 0xFFFFFFFF },
       script_sig := u64ToLeBytes 0, sequence := 0xFFFFFFFF }]
    [TxOutput.new 30 [], TxOutput.new 70 []] 0

/-- The block holding just `coinbaseTwoOutputs`. -/
def blockTwoOutputs : Block := ⟨[coinbaseTwoOutputs]⟩

/-- C1 (code bug): applying a block does *not* key the created UTXOs by
`(hash(T), i)`.  `Utxo::new` drops its `txid`/`vout` arguments and
`Utxo::outpoint` is a placeholder pinned to `(Hash256::zero(), 0)`, so the
two outputs of the coinbase both land on the key `(zero, 0)`, the second
overwriting the first: the resulting set has a single entry, holds neither
`(hash(T), 0)` nor `(hash(T), 1)`, and retains only the last output's
value. -/
theorem C1_apply_to_utxo_set_misskeys :
    Block.apply_to_utxo_set txHashOne blockTwoOutputs UtxoSet.new =
      .ok ⟨[(⟨Hash256.zero, 0⟩,
            { output := { value := 70, script_pubkey := [] }, height := 0 })]⟩ ∧
    (Block.apply_to_utxo_set txHashOne blockTwoOutputs UtxoSet.new).map
        (fun s => s.len) = .ok 1 ∧
    (Block.apply_to_utxo_set txHashOne blockTwoOutputs UtxoSet.new).map
        (fun s => s.contains (OutPoint.new (txHashOne coinbaseTwoOutputs) 0)) =
      .ok false ∧
    (Block.apply_to_utxo_set txHashOne blockTwoOutputs UtxoSet.new).map
        (fun s => s.contains (OutPoint.new (txHashOne coinbaseTwoOutputs) 1)) =
      .ok false := by
  refine ⟨?_, ?_, ?_, ?_⟩ <;> decide

/-- A UTXO set holding one coinbase-created UTXO of 5000 Elos at height
100, stored (as the placeholder keying has it) under `(zero, 0)`. -/
def coinbaseUtxoSet : UtxoSet :=
  ⟨[(⟨Hash256.zero, 0⟩,
     { output := { value := 5000, script_pubkey := [] }, height := 100 })]⟩

/-- A transaction spending that UTXO, paying 4000 out of its 5000 Elos. -/
def immatureSpend : Transaction :=
  Transaction.new 1
    [TxInput.new (OutPoint.new Hash256.zero 0) [] 0]
    [TxOutput.new 4000 []] 0

/-- C2 (code bug): `Blockchain::validate_transaction` accepts a spend of a
coinbase UTXO created at height 100 even though at chain height 101 the
UTXO is immature by the code's own `Utxo::is_mature` (101 < 100 + 100):
validation performs no maturity check at all. -/
theorem C2_no_maturity_check :
    Blockchain.validate_transaction coinbaseUtxoSet immatureSpend = .ok () ∧
    (coinbaseUtxoSet.get (OutPoint.new Hash256.zero 0)).map
        (fun u => u.is_mature 101 true) = some false := by
  exact ⟨by decide, by decide⟩

/-! ## bond-core/src/script.rs — constants, opcodes, stack items -/

/-- `MAX_STACK_SIZE`. -/
def MAX_STACK_SIZE : Nat := 1000

/-- `MAX_SCRIPT_SIZE`. -/
def MAX_SCRIPT_SIZE : Nat := 10000

/-- `MAX_OPS`. -/
def MAX_OPS : Nat := 1000

/-- `bond_core::script::OpCode`. -/
inductive OpCode where
  | OP_DUP | OP_DROP | OP_SWAP | OP_ROT
  | OP_PUSHDATA | OP_PUSHNUM
  | OP_ADD | OP_SUB | OP_MUL | OP_DIV | OP_MOD
  | OP_EQUAL | OP_EQUALVERIFY | OP_LESSTHAN | OP_GREATERTHAN
  | OP_HASH256 | OP_CHECKSIG | OP_CHECKMULTISIG
  | OP_IF | OP_ELSE | OP_ENDIF | OP_VERIFY | OP_RETURN
  | OP_NOP
  deriving DecidableEq, Repr

/-- `OpCode::try_from(u8)`: the byte-to-opcode table; an unknown byte is a
`ScriptError`. -/
def OpCode.try_from (value : Nat) : Except BondError OpCode :=
  if value = 0x01 then .ok .OP_DUP
  else if value = 0x02 then .ok .OP_DROP
  else if value = 0x03 then .ok .OP_SWAP
  else if value = 0x04 then .ok .OP_ROT
  else if value = 0x10 then .ok .OP_PUSHDATA
  else if value = 0x11 then .ok .OP_PUSHNUM
  else if value = 0x20 then .ok .OP_ADD
  else if value = 0x21 then .ok .OP_SUB
  else if value = 0x22 then .ok .OP_MUL
  else if value = 0x23 then .ok .OP_DIV
  else if value = 0x24 then .ok .OP_MOD
  else if value = 0x30 then .ok .OP_EQUAL
  else if value = 0x31 then .ok .OP_EQUALVERIFY
  else if value = 0x32 then .ok .OP_LESSTHAN
  else if value = 0x33 then .ok .OP_GREATERTHAN
  else if value = 0x40 then .ok .OP_HASH256
  else if value = 0x41 then .ok .OP_CHECKSIG
  else if value = 0x42 then .ok .OP_CHECKMULTISIG
  else if value = 0x50 then .ok .OP_IF
  else if value = 0x51 then .ok .OP_ELSE
  else if value = 0x52 then .ok .OP_ENDIF
  else if value = 0x53 then .ok .OP_VERIFY
  else if value = 0x54 then .ok .OP_RETURN
  else if value = 0xFF then .ok .OP_NOP
  else .error .ScriptError

/-- `bond_core::script::StackItem`.  `Number` is an `i64`, kept as an `Int`
in two's-complement range by `i64Wrap` wherever the source can wrap. -/
inductive StackItem where
  | Data (data : List Nat)
  | Number (n : Int)
  | Boolean (b : Bool)
  deriving DecidableEq, Repr

/-- Reduce an integer to the `i64` two's-complement range (release-mode
wrap-around; the only divergence is `i64::MIN / -1`, which panics in Rust
and wraps here — no theorem below touches it). -/
def i64Wrap (n : Int) : Int := (n + 2 ^ 63) % 2 ^ 64 - 2 ^ 63

/-- `StackItem::as_bytes`: a number becomes its 8 little-endian
two's-complement bytes, a boolean a single 0/1 byte. -/
def StackItem.as_bytes : StackItem → List Nat
  | .Data data => data
  | .Number n => u64ToLeBytes (n % 2 ^ 64).toNat
  | .Boolean b => [if b then 1 else 0]

/-- `StackItem::as_number`: data of at most 8 bytes is zero-padded and read
as a little-endian `i64`; longer data is a `ScriptError`. -/
def StackItem.as_number : StackItem → Except BondError Int
  | .Number n => .ok n
  | .Boolean b => .ok (if b then 1 else 0)
  | .Data data =>
      if data.isEmpty then .ok 0
      else if data.length ≤ 8 then
        let u := u64FromLeBytes data
        .ok (if u < 2 ^ 63 then (u : Int) else (u : Int) - 2 ^ 64)
      else .error .ScriptError

/-- `StackItem::as_bool`: a number is true iff non-zero; data is true iff
non-empty with some non-zero byte. -/
def StackItem.as_bool : StackItem → Bool
  | .Boolean b => b
  | .Number n => n != 0
  | .Data data => !data.isEmpty && data.any fun b => b != 0

/-- `bond_core::script::ScriptContext`. -/
structure ScriptContext where
  transaction_hash : List Nat
  input_index : Nat
  public_keys : List (List Nat × List Nat)
  signatures : List (List Nat)
  deriving DecidableEq, Repr

/-! ## bond-core/src/script.rs — the individual operations

Each `op_*` acts on the operand stack, listed top-first (the Rust `Vec`
pushes to and pops from its end; the list head is that end). -/

/-- `ScriptVM::op_dup`. -/
def op_dup : List StackItem → Except BondError (List StackItem)
  | [] => .error .ScriptError
  | top :: rest => .ok (top :: top :: rest)

/-- `ScriptVM::op_drop`. -/
def op_drop : List StackItem → Except BondError (List StackItem)
  | [] => .error .ScriptError
  | _ :: rest => .ok rest

/-- `ScriptVM::op_swap`. -/
def op_swap : List StackItem → Except BondError (List StackItem)
  | a :: b :: rest => .ok (b :: a :: rest)
  | _ => .error .ScriptError

/-- `ScriptVM::op_rot`: the third-from-top item moves to the top. -/
def op_rot : List StackItem → Except BondError (List StackItem)
  | a :: b :: c :: rest => .ok (c :: a :: b :: rest)
  | _ => .error .ScriptError

/-- `ScriptVM::op_add`: pops `b` then `a`, pushes `a + b`. -/
def op_add : List StackItem → Except BondError (List StackItem)
  | b :: a :: rest => do
      let na ← a.as_number
      let nb ← b.as_number
      .ok (.Number (i64Wrap (na + nb)) :: rest)
  | _ => .error .ScriptError

/-- `ScriptVM::op_sub`: pops `b` then `a`, pushes `a - b`. -/
def op_sub : List StackItem → Except BondError (List StackItem)
  | b :: a :: rest => do
      let na ← a.as_number
      let nb ← b.as_number
      .ok (.Number (i64Wrap (na - nb)) :: rest)
  | _ => .error .ScriptError

/-- `ScriptVM::op_mul`. -/
def op_mul : List StackItem → Except BondError (List StackItem)
  | b :: a :: rest => do
      let na ← a.as_number
      let nb ← b.as_number
      .ok (.Number (i64Wrap (na * nb)) :: rest)
  | _ => .error .ScriptError

/-- `ScriptVM::op_div`: division by zero is a `ScriptError`; Rust `/` on
`i64` truncates toward zero (`Int.tdiv`). -/
def op_div : List StackItem → Except BondError (List StackItem)
  | b :: a :: rest => do
      let nb ← b.as_number
      if nb = 0 then .error .ScriptError
      else do
        let na ← a.as_number
        .ok (.Number (i64Wrap (Int.tdiv na nb)) :: rest)
  | _ => .error .ScriptError

/-- `ScriptVM::op_mod`: modulo by zero is a `ScriptError`; Rust `%` keeps
the dividend's sign (`Int.tmod`). -/
def op_mod : List StackItem → Except BondError (List StackItem)
  | b :: a :: rest => do
      let nb ← b.as_number
      if nb = 0 then .error .ScriptError
      else do
        let na ← a.as_number
        .ok (.Number (i64Wrap (Int.tmod na nb)) :: rest)
  | _ => .error .ScriptError

/-- `ScriptVM::op_equal`: byte-representation equality. -/
def op_equal : List StackItem → Except BondError (List StackItem)
  | b :: a :: rest => .ok (.Boolean (a.as_bytes == b.as_bytes) :: rest)
  | _ => .error .ScriptError

/-- `ScriptVM::op_lessthan`. -/
def op_lessthan : List StackItem → Except BondError (List StackItem)
  | b :: a :: rest => do
      let na ← a.as_number
      let nb ← b.as_number
      .ok (.Boolean (decide (na < nb)) :: rest)
  | _ => .error .ScriptError

/-- `ScriptVM::op_greaterthan`. -/
def op_greaterthan : List StackItem → Except BondError (List StackItem)
  | b :: a :: rest => do
      let na ← a.as_number
      let nb ← b.as_number
      .ok (.Boolean (decide (nb < na)) :: rest)
  | _ => .error .ScriptError

/-- `ScriptVM::op_hash256`: SHA3-256 (external `sha3` crate, passed in as
`sha3`) of the top item's bytes. -/
def op_hash256 (sha3 : List Nat → List Nat) :
    List StackItem → Except BondError (List StackItem)
  | [] => .error .ScriptError
  | top :: rest => .ok (.Data (sha3 top.as_bytes) :: rest)

/-- `ScriptVM::op_checksig`: pops the public key then the signature, and —
as the source's admitted placeholder has it — pushes `true` exactly when
both byte strings are non-empty.  No cryptographic verification happens and
the script context is never consulted. -/
def op_checksig (_context : ScriptContext) :
    List StackItem → Except BondError (List StackItem)
  | pubkey :: signature :: rest =>
      .ok (.Boolean (decide (0 < signature.as_bytes.length) &&
                     decide (0 < pubkey.as_bytes.length)) :: rest)
  | _ => .error .ScriptError

/-- `ScriptVM::op_checkmultisig`: unimplemented, always a `ScriptError`. -/
def op_checkmultisig (_context : ScriptContext) :
    List StackItem → Except BondError (List StackItem) :=
  fun _ => .error .ScriptError

/-- `ScriptVM::op_verify`: pops the top and fails unless it is true. -/
def op_verify : List StackItem → Except BondError (List StackItem)
  | [] => .error .ScriptError
  | top :: rest => if top.as_bool then .ok rest else .error .ScriptError

/-- `ScriptVM::read_push_data`: a one-byte length then that many bytes;
running off the script is a `ScriptError`. -/
def read_push_data (script : List Nat) (pc : Nat) :
    Except BondError (List Nat × Nat) :=
  if script.length ≤ pc then .error .ScriptError
  else
    let len := script.getD pc 0
    let start := pc + 1
    let stop := start + len
    if script.length < stop then .error .ScriptError
    else .ok ((script.drop start).take len, stop)

/-- `ScriptVM::read_number`: 8 little-endian bytes as an `i64`. -/
def read_number (script : List Nat) (pc : Nat) :
    Except BondError (Int × Nat) :=
  if script.length < pc + 8 then .error .ScriptError
  else
    let u := u64FromLeBytes ((script.drop pc).take 8)
    .ok (if u < 2 ^ 63 then ((u : Int), pc + 8) else ((u : Int) - 2 ^ 64, pc + 8))

/-! ## bond-core/src/script.rs — ScriptVM::execute

The Rust `while pc < script.len()` loop becomes a recursion on an explicit
fuel argument.  The program counter strictly increases on every iteration
(each opcode byte is consumed, and `PUSHDATA`/`PUSHNUM` only move it
further), so `script.length` iterations can never be exceeded and the
initial fuel `script.length` makes the fuel-exhausted branch unreachable;
it is kept only to make the recursion structural. -/

/-- `bond_core::script::ScriptVM`: operand stack, alternate stack (never
touched by any opcode) and the operation counter. -/
structure ScriptVM where
  stack : List StackItem
  alt_stack : List StackItem
  op_count : Nat
  deriving DecidableEq, Repr

/-- `ScriptVM::new`. -/
def ScriptVM.new : ScriptVM := ⟨[], [], 0⟩

/-- One dispatch of the `match opcode` in `ScriptVM::execute`, for every
opcode except `OP_RETURN` (handled by the loop, which it terminates):
given the stack and the program counter already moved past the opcode
byte, produce the new stack and the next program counter.
`OP_IF`/`OP_ELSE`/`OP_ENDIF` fall into the source's unimplemented-opcode
arm. -/
def execStep (sha3 : List Nat → List Nat) (context : ScriptContext)
    (script : List Nat) (pc1 : Nat) (stack : List StackItem) :
    OpCode → Except BondError (List StackItem × Nat)
  | .OP_DUP => do .ok (← op_dup stack, pc1)
  | .OP_DROP => do .ok (← op_drop stack, pc1)
  | .OP_SWAP => do .ok (← op_swap stack, pc1)
  | .OP_ROT => do .ok (← op_rot stack, pc1)
  | .OP_PUSHDATA => do
      let (data, new_pc) ← read_push_data script pc1
      .ok (.Data data :: stack, new_pc)
  | .OP_PUSHNUM => do
      let (num, new_pc) ← read_number script pc1
      .ok (.Number num :: stack, new_pc)
  | .OP_ADD => do .ok (← op_add stack, pc1)
  | .OP_SUB => do .ok (← op_sub stack, pc1)
  | .OP_MUL => do .ok (← op_mul stack, pc1)
  | .OP_DIV => do .ok (← op_div stack, pc1)
  | .OP_MOD => do .ok (← op_mod stack, pc1)
  | .OP_EQUAL => do .ok (← op_equal stack, pc1)
  | .OP_EQUALVERIFY => do .ok (← op_verify (← op_equal stack), pc1)
  | .OP_LESSTHAN => do .ok (← op_lessthan stack, pc1)
  | .OP_GREATERTHAN => do .ok (← op_greaterthan stack, pc1)
  | .OP_HASH256 => do .ok (← op_hash256 sha3 stack, pc1)
  | .OP_CHECKSIG => do .ok (← op_checksig context stack, pc1)
  | .OP_CHECKMULTISIG => do .ok (← op_checkmultisig context stack, pc1)
  | .OP_VERIFY => do .ok (← op_verify stack, pc1)
  | .OP_NOP => .ok (stack, pc1)
  | .OP_IF => .error .ScriptError
  | .OP_ELSE => .error .ScriptError
  | .OP_ENDIF => .error .ScriptError
  | .OP_RETURN => .error .ScriptError

/-- The `while pc < script.len()` loop of `ScriptVM::execute`: check the
operation limit (`op_count > MAX_OPS`, counting operations already
executed), decode the opcode byte, bump `pc` and `op_count`, dispatch
(`OP_RETURN` ends the whole execution with `Ok(false)`), then check the
stack-size limit.  On normal exit the result is false on an empty stack,
else the truthiness of the top item. -/
def executeLoop (sha3 : List Nat → List Nat) (script : List Nat)
    (context : ScriptContext) :
    Nat → Nat → List StackItem → Nat →
    Except BondError (List StackItem × Nat × Bool)
  | fuel, pc, stack, op_count =>
    if pc < script.length then
      match fuel with
      | 0 => .error .ScriptError
      | fuel' + 1 =>
        if MAX_OPS < op_count then .error .ScriptError
        else
          match OpCode.try_from (script.getD pc 0) with
          | .error e => .error e
          | .ok opcode =>
              if opcode = .OP_RETURN then .ok (stack, op_count + 1, false)
              else
                match execStep sha3 context script (pc + 1) stack opcode with
                | .error e => .error e
                | .ok (stack', pcNext) =>
                    if MAX_STACK_SIZE < stack'.length then .error .ScriptError
                    else executeLoop sha3 script context fuel' pcNext stack'
                      (op_count + 1)
    else
      match stack with
      | [] => .ok (stack, op_count, false)
      | top :: _ => .ok (stack, op_count, top.as_bool)

/-- `ScriptVM::execute`: reject scripts over `MAX_SCRIPT_SIZE` bytes, then
run the loop on the VM's current stack and operation counter (both persist
across calls on the same VM, as `Transaction::validate_scripts`
relies on). -/
def ScriptVM.execute (sha3 : List Nat → List Nat) (vm : ScriptVM)
    (script : List Nat) (context : ScriptContext) :
    Except BondError (ScriptVM × Bool) :=
  if MAX_SCRIPT_SIZE < script.length then .error .ScriptError
  else
    match executeLoop sha3 script context script.length 0 vm.stack
        vm.op_count with
    | .error e => .error e
    | .ok (stack', op_count', result) =>
        .ok ({ vm with stack := stack', op_count := op_count' }, result)

/-! ## C3 and C4 -/

/-- A stand-in for the external SHA3-256 permutation (no theorem below
depends on its values). -/
def sha3Stub : List Nat → List Nat := fun _ => []

/-- A concrete script context. -/
def ctx0 : ScriptContext :=
  { transaction_hash := List.replicate 32 0, input_index := 0,
    public_keys := [], signatures := [] }

/-- `PUSHDATA [0x01]; PUSHDATA [0x02]; CHECKSIG`: a one-byte "signature"
and a one-byte "public key" — byte strings no signature scheme accepts. -/
def checksigScript : List Nat := [0x10, 1, 0x01, 0x10, 1, 0x02, 0x41]

/-- C3 (code bug): `OP_CHECKSIG` performs no cryptographic verification.
It pushes `true` for *every* non-empty signature/public-key pair — never
consulting the script context that carries the transaction's sighash — so
no non-empty invalid signature can make it push `false`.  In particular
the concrete script pushing the one-byte signature `0x01` and one-byte key
`0x02` executes to `true`. -/
theorem C3_checksig_accepts_any_nonempty :
    (∀ (context : ScriptContext) (sg pk : StackItem) (rest : List StackItem),
      0 < sg.as_bytes.length → 0 < pk.as_bytes.length →
      op_checksig context (pk :: sg :: rest) = .ok (.Boolean true :: rest)) ∧
    ScriptVM.execute sha3Stub ScriptVM.new checksigScript ctx0 =
      .ok (⟨[.Boolean true], [], 3⟩, true) := by
  constructor
  · intro context sg pk rest hsg hpk
    simp [op_checksig, hsg, hpk]
  · decide

/-- Witness for C3: the general statement applied to the concrete one-byte
signature and public key. -/
theorem C3_checksig_accepts_any_nonempty_witness :
    op_checksig ctx0 [.Data [0x02], .Data [0x01]] = .ok [.Boolean true] :=
  C3_checksig_accepts_any_nonempty.1 ctx0 (.Data [0x01]) (.Data [0x02]) []
    (by decide) (by decide)

/-- `List.getD` on a replicated list. -/
theorem getD_replicate (a d : Nat) : ∀ (n i : Nat), i < n →
    (List.replicate n a).getD i d = a := by
  intro n
  induction n with
  | zero => intro i h; omega
  | succ m ih =>
      intro i h
      cases i with
      | zero => simp [List.replicate]
      | succ j => simpa [List.replicate] using ih j (by omega)

/-- Running the loop over an all-`OP_NOP` script of length at most
`MAX_OPS + 1`, from program counter `pc` with an empty stack and
`op_count = pc`: every remaining byte executes and the run ends in
`Ok(false)`. -/
theorem executeLoop_nops_ok (n : Nat) (hn : n ≤ MAX_OPS + 1) :
    ∀ fuel pc, pc ≤ n → n - pc ≤ fuel →
    executeLoop sha3Stub (List.replicate n 255) ctx0 fuel pc [] pc =
      .ok ([], n, false) := by
  intro fuel
  induction fuel with
  | zero =>
      intro pc hpc hfuel
      have hpcn : pc = n := by omega
      subst hpcn
      simp [executeLoop]
  | succ f ih =>
      intro pc hpc hfuel
      by_cases hlt : pc < n
      · have h1 : pc < (List.replicate n (255 : Nat)).length := by
          simpa using hlt
        have h2 : (List.replicate n (255 : Nat)).getD pc 0 = 255 :=
          getD_replicate 255 0 n pc hlt
        have h3 : ¬ MAX_OPS < pc := by
          unfold MAX_OPS at hn ⊢; omega
        rw [executeLoop]
        simp only [h1, if_true, h3, if_false, h2]
        have h4 : OpCode.try_from 255 = .ok .OP_NOP := by decide
        rw [h4]
        simp only [execStep, reduceCtorEq, if_false]
        have h5 : ¬ MAX_STACK_SIZE < ([] : List StackItem).length := by decide
        simp only [List.length_nil, h5, if_false]
        exact ih (pc + 1) (by omega) (by omega)
      · have hpcn : pc = n := by omega
        subst hpcn
        simp [executeLoop, hlt]

/-- Running the loop over an all-`OP_NOP` script longer than
`MAX_OPS + 1`, from program counter `pc ≤ MAX_OPS + 1` with an empty stack
and `op_count = pc`: the run executes bytes until 1001 operations have run
and then dies on the operation limit. -/
theorem executeLoop_nops_error (n : Nat) (hn : MAX_OPS + 1 < n) :
    ∀ fuel pc, pc ≤ MAX_OPS + 1 → n - pc ≤ fuel →
    executeLoop sha3Stub (List.replicate n 255) ctx0 fuel pc [] pc =
      .error .ScriptError := by
  intro fuel
  induction fuel with
  | zero =>
      intro pc hpc hfuel
      have hlt : pc < n := by unfold MAX_OPS at hn hpc; omega
      have h1 : pc < (List.replicate n (255 : Nat)).length := by simpa using hlt
      rw [executeLoop]
      simp [h1, hlt]
  | succ f ih =>
      intro pc hpc hfuel
      have hlt : pc < n := by unfold MAX_OPS at hn hpc; omega
      have h1 : pc < (List.replicate n (255 : Nat)).length := by simpa using hlt
      by_cases hcap : MAX_OPS < pc
      · rw [executeLoop]
        simp [h1, hlt, hcap]
      · have h2 : (List.replicate n (255 : Nat)).getD pc 0 = 255 :=
          getD_replicate 255 0 n pc hlt
        rw [executeLoop]
        simp only [h1, if_true, hcap, if_false, h2]
        have h4 : OpCode.try_from 255 = .ok .OP_NOP := by decide
        rw [h4]
        simp only [execStep, reduceCtorEq, if_false]
        have h5 : ¬ MAX_STACK_SIZE < ([] : List StackItem).length := by decide
        simp only [List.length_nil, h5, if_false]
        exact ih (pc + 1) (by unfold MAX_OPS at hcap ⊢; omega) (by omega)

/-- A fresh VM run on an all-`OP_NOP` script of length `n ≤ MAX_SCRIPT_SIZE`
executes all `n` operations and returns `Ok(false)` whenever
`n ≤ MAX_OPS + 1`, and dies on the operation limit only beyond that. -/
theorem execute_nops (n : Nat) (hlen : n ≤ MAX_SCRIPT_SIZE) :
    ScriptVM.execute sha3Stub ScriptVM.new (List.replicate n 255) ctx0 =
      if n ≤ MAX_OPS + 1 then .ok (⟨[], [], n⟩, false)
      else .error .ScriptError := by
  unfold ScriptVM.execute
  have hlen2 : ¬ MAX_SCRIPT_SIZE < (List.replicate n (255 : Nat)).length := by
    simpa using hlen
  rw [if_neg hlen2]
  rw [show ScriptVM.new.stack = [] from rfl,
    show ScriptVM.new.op_count = 0 from rfl, List.length_replicate]
  by_cases hcase : n ≤ MAX_OPS + 1
  · rw [executeLoop_nops_ok n hcase n 0 (by omega) (by omega)]
    simp [hcase, ScriptVM.new]
  · rw [executeLoop_nops_error n (by omega) n 0 (by omega) (by omega)]
    simp [hcase]

/-- C4 (code bug): the operation limit is checked as
`op_count > MAX_OPS` *before* the increment, with `op_count` counting the
operations already executed — so a script of 1001 `OP_NOP`s executes all
1001 operations and finishes with `Ok(false)`, although the claim (and the
constant's own documentation, "maximum number of operations per script
execution" with `MAX_OPS = 1000`) demands that the 1001st operation not
execute.  Only a 1002nd operation trips the limit. -/
theorem C4_op_limit_off_by_one :
    ScriptVM.execute sha3Stub ScriptVM.new (List.replicate 1001 255) ctx0 =
      .ok (⟨[], [], 1001⟩, false) ∧
    ScriptVM.execute sha3Stub ScriptVM.new (List.replicate 1002 255) ctx0 =
      .error .ScriptError := by
  constructor
  · rw [execute_nops 1001 (by decide)]; decide
  · rw [execute_nops 1002 (by decide)]; decide

/-! ## bond-core/src/transaction.rs — validate_scripts -/

/-- The source guards each `vm.execute` with
`if !script.is_empty()`; an empty script is not executed and its absent
result check is skipped — returning the untouched VM and `true` (which
passes the skipped `if !result` check) renders that control flow exactly. -/
def runIfNonEmptyScript (sha3 : List Nat → List Nat) (vm : ScriptVM)
    (script : List Nat) (context : ScriptContext) :
    Except BondError (ScriptVM × Bool) :=
  if script.isEmpty then .ok (vm, true)
  else ScriptVM.execute sha3 vm script context

/-- The input loop of `Transaction::validate_scripts`: look up the spent
UTXO (`TransactionNotFound` if absent), build the script context from the
transaction hash, run the unlocking script then — on the same VM — the
locking script, failing the whole validation (with `Ok(false)`) as soon as
one of them evaluates to false. -/
def validateScriptsLoop (sha3 : List Nat → List Nat) (txHashBytes : List Nat)
    (utxo_set : UtxoSet) :
    Nat → List TxInput → Except BondError Bool
  | _, [] => .ok true
  | input_index, input :: rest =>
      match utxo_set.get input.previous_output with
      | none => .error .TransactionNotFound
      | some utxo =>
          let context : ScriptContext :=
            { transaction_hash := txHashBytes, input_index := input_index,
              public_keys := [], signatures := [] }
          match runIfNonEmptyScript sha3 ScriptVM.new input.script_sig
              context with
          | .error e => .error e
          | .ok (vm1, unlock_result) =>
              if !unlock_result then .ok false
              else
                match runIfNonEmptyScript sha3 vm1 utxo.output.script_pubkey
                    context with
                | .error e => .error e
                | .ok (_, lock_result) =>
                    if !lock_result then .ok false
                    else validateScriptsLoop sha3 txHashBytes utxo_set
                      (input_index + 1) rest

/-- `Transaction::validate_scripts`: coinbase transactions skip script
validation entirely.  `txHash` again stands for `Transaction::hash`; the
source recomputes it per input, always to the same value. -/
def Transaction.validate_scripts (sha3 : List Nat → List Nat)
    (txHash : Transaction → Hash256) (tx : Transaction)
    (utxo_set : UtxoSet) : Except BondError Bool :=
  if tx.is_coinbase then .ok true
  else validateScriptsLoop sha3 (txHash tx) utxo_set 0 tx.inputs

/-- The loop accepts outright when every input has an empty unlocking
script and an empty referenced locking script. -/
theorem validateScriptsLoop_all_empty (sha3 : List Nat → List Nat)
    (txHashBytes : List Nat) (s : UtxoSet) :
    ∀ (inputs : List TxInput) (idx : Nat),
    (∀ i ∈ inputs, i.script_sig = [] ∧
      ∃ u, s.get i.previous_output = some u ∧ u.output.script_pubkey = []) →
    validateScriptsLoop sha3 txHashBytes s idx inputs = .ok true := by
  intro inputs
  induction inputs with
  | nil => intro idx _; rfl
  | cons input rest ih =>
      intro idx hall
      obtain ⟨hsig, u, hget, hpk⟩ := hall input (List.mem_cons_self input rest)
      have hrest : ∀ i ∈ rest, i.script_sig = [] ∧
          ∃ v, s.get i.previous_output = some v ∧
            v.output.script_pubkey = [] :=
        fun i hi => hall i (List.mem_cons_of_mem input hi)
      rw [validateScriptsLoop, hget]
      simp only [runIfNonEmptyScript, hsig, hpk, List.isEmpty_nil, if_true,
        Bool.not_true, Bool.false_eq_true, if_false]
      exact ih (idx + 1) hrest

/-- C10: for a non-coinbase transaction all of whose inputs reference
UTXOs present in the set, `validate_scripts` executes no script for an
input whose `script_sig` is empty and whose referenced UTXO carries an
empty `script_pubkey`; a transaction in which every unlocking script and
every referenced locking script is empty validates to `Ok(true)` — such
outputs are spendable with no script evaluation at all. -/
theorem C10_empty_scripts_validate (sha3 : List Nat → List Nat)
    (txHash : Transaction → Hash256) (tx : Transaction) (s : UtxoSet)
    (hcb : tx.is_coinbase = false)
    (hall : ∀ i ∈ tx.inputs, i.script_sig = [] ∧
      ∃ u, s.get i.previous_output = some u ∧ u.output.script_pubkey = []) :
    Transaction.validate_scripts sha3 txHash tx s = .ok true := by
  unfold Transaction.validate_scripts
  rw [hcb]
  simp only [Bool.false_eq_true, if_false]
  exact validateScriptsLoop_all_empty sha3 (txHash tx) s tx.inputs 0 hall

/-- Witness for C10: a one-input transaction spending a 50-Elo UTXO under
an empty locking script with an empty unlocking script. -/
theorem C10_empty_scripts_validate_witness :
    Transaction.validate_scripts sha3Stub txHashOne
      (Transaction.new 1 [TxInput.new (OutPoint.new Hash256.zero 0) [] 0]
        [TxOutput.new 49 []] 0)
      ⟨[(⟨Hash256.zero, 0⟩,
         { output := { value := 50, script_pubkey := [] }, height := 1 })]⟩ =
      .ok true :=
  C10_empty_scripts_validate sha3Stub txHashOne _ _ (by decide)
    (by
      intro i hi
      simp only [Transaction.new, List.mem_singleton] at hi
      subst hi
      refine ⟨rfl, ⟨(⟨⟨50, []⟩, 1⟩ : Utxo), ?_, rfl⟩⟩
      decide)

/-! ## bond-core/src/block.rs — calculate_merkle_root

`keccak` stands for `Hash256::keccak256` (external `sha3` crate); `txHash`
for `Transaction::hash`.  The source's `hashes.chunks(2)` iteration is
`chunksOfTwo` + `combineChunk`; the claim's own wording ("adjacent pairs
concatenated and re-hashed, an odd trailing hash concatenated with
itself") is the separate direct recursion `pairCombineSpec`, and
`merkleRootSpec` is the claim's binary tree, level by level. -/

/-- `slice::chunks(2)`: blocks of two, a lone trailing element in a
singleton block. -/
def chunksOfTwo {α : Type} : List α → List (List α)
  | [] => []
  | [a] => [[a]]
  | a :: b :: rest => [a, b] :: chunksOfTwo rest

/-- The body of the source's `for chunk in hashes.chunks(2)` loop: a
two-element chunk hashes the concatenation of both, a one-element chunk
hashes its element concatenated with itself.  (`chunks(2)` never yields
any other shape; the catch-all is dead.) -/
def combineChunk (keccak : List Nat → Hash256) (chunk : List Hash256) :
    Hash256 :=
  match chunk with
  | [a, b] => keccak (a ++ b)
  | [a] => keccak (a ++ a)
  | _ => Hash256.zero

/-- `(chunksOfTwo hashes).map (combineChunk keccak)` halves the length,
rounding up. -/
theorem chunksOfTwo_length {α : Type} : ∀ l : List α,
    (chunksOfTwo l).length = (l.length + 1) / 2
  | [] => by simp [chunksOfTwo]
  | [_] => by simp [chunksOfTwo]
  | _ :: _ :: rest => by
      simp only [chunksOfTwo, List.length_cons, chunksOfTwo_length rest]
      omega

/-- The `while hashes.len() > 1` loop of `calculate_merkle_root`: build
the next level from the chunks and repeat; the surviving hash is
`hashes[0]`. -/
def merkleLoop (keccak : List Nat → Hash256) (hashes : List Hash256) :
    Hash256 :=
  if 1 < hashes.length then
    merkleLoop keccak ((chunksOfTwo hashes).map (combineChunk keccak))
  else hashes.headD Hash256.zero
  termination_by hashes.length
  decreasing_by
    simp only [List.length_map, chunksOfTwo_length]
    omega

/-- `bond_core::block::calculate_merkle_root`: the zero hash for an empty
list, the lone transaction's hash for a singleton, else the loop's
result. -/
def calculate_merkle_root (keccak : List Nat → Hash256)
    (txHash : Transaction → Hash256) (transactions : List Transaction) :
    Hash256 :=
  if transactions.isEmpty then Hash256.zero
  else
    let hashes := transactions.map txHash
    if hashes.length = 1 then hashes.headD Hash256.zero
    else merkleLoop keccak hashes

/-- One level of the claim's binary tree, in the claim's own words:
adjacent pairs are concatenated and re-hashed, an odd trailing hash is
concatenated with itself. -/
def pairCombineSpec (keccak : List Nat → Hash256) :
    List Hash256 → List Hash256
  | [] => []
  | [a] => [keccak (a ++ a)]
  | a :: b :: rest => keccak (a ++ b) :: pairCombineSpec keccak rest

/-- `pairCombineSpec` halves the length, rounding up. -/
theorem pairCombineSpec_length (keccak : List Nat → Hash256) :
    ∀ l : List Hash256,
    (pairCombineSpec keccak l).length = (l.length + 1) / 2
  | [] => by simp [pairCombineSpec]
  | [_] => by simp [pairCombineSpec]
  | _ :: _ :: rest => by
      simp only [pairCombineSpec, List.length_cons,
        pairCombineSpec_length keccak rest]
      omega

/-- The root of the claim's binary tree over a level of hashes: the zero
hash for no leaves, the hash itself for one leaf, else the root over the
next level up. -/
def merkleRootSpec (keccak : List Nat → Hash256) (hs : List Hash256) :
    Hash256 :=
  match hs with
  | [] => Hash256.zero
  | [h] => h
  | a :: b :: rest =>
      merkleRootSpec keccak (pairCombineSpec keccak (a :: b :: rest))
  termination_by hs.length
  decreasing_by
    simp only [pairCombineSpec_length, List.length_cons]
    omega

/-- The chunked level construction of the source is the claim's pairing. -/
theorem chunks_map_eq_pairCombineSpec (keccak : List Nat → Hash256) :
    ∀ l : List Hash256,
    (chunksOfTwo l).map (combineChunk keccak) = pairCombineSpec keccak l
  | [] => rfl
  | [_] => rfl
  | a :: b :: rest => by
      simp only [chunksOfTwo, List.map_cons, combineChunk, pairCombineSpec,
        chunks_map_eq_pairCombineSpec keccak rest]

/-- On any non-empty level the source's loop computes the claim's root. -/
theorem merkleLoop_eq_spec (keccak : List Nat → Hash256) :
    ∀ (n : Nat) (hs : List Hash256), hs.length ≤ n → hs ≠ [] →
    merkleLoop keccak hs = merkleRootSpec keccak hs := by
  intro n
  induction n with
  | zero =>
      intro hs hlen hne
      cases hs with
      | nil => exact absurd rfl hne
      | cons a rest => simp at hlen
  | succ m ih =>
      intro hs hlen hne
      match hs with
      | [] => exact absurd rfl hne
      | [a] =>
          rw [merkleLoop, merkleRootSpec]
          simp
      | a :: b :: rest =>
          rw [merkleLoop, merkleRootSpec]
          have h2 : 1 < (a :: b :: rest).length := by
            simp only [List.length_cons]; omega
          rw [if_pos h2, chunks_map_eq_pairCombineSpec]
          have hlen2 : (pairCombineSpec keccak (a :: b :: rest)).length ≤ m := by
            rw [pairCombineSpec_length]
            simp only [List.length_cons] at hlen ⊢
            omega
          have hne2 : pairCombineSpec keccak (a :: b :: rest) ≠ [] := by
            intro hc
            have := pairCombineSpec_length keccak (a :: b :: rest)
            rw [hc] at this
            simp only [List.length_nil, List.length_cons] at this
            omega
          exact ih (pairCombineSpec keccak (a :: b :: rest)) hlen2 hne2

/-- C6: `calculate_merkle_root` of the empty list is the zero hash; of a
single transaction, that transaction's hash; and in general it is the
root of the binary tree in which, at each level, adjacent pairs of hashes
are concatenated and re-hashed, an odd trailing hash being concatenated
with itself (`merkleRootSpec`, phrased from the claim). -/
theorem C6_merkle_root (keccak : List Nat → Hash256)
    (txHash : Transaction → Hash256) :
    calculate_merkle_root keccak txHash [] = Hash256.zero ∧
    (∀ tx, calculate_merkle_root keccak txHash [tx] = txHash tx) ∧
    (∀ transactions, calculate_merkle_root keccak txHash transactions =
      merkleRootSpec keccak (transactions.map txHash)) := by
  refine ⟨rfl, fun tx => rfl, fun transactions => ?_⟩
  match transactions with
  | [] => rw [merkleRootSpec.eq_def]; rfl
  | [tx] => rw [merkleRootSpec.eq_def]; rfl
  | tx1 :: tx2 :: rest =>
      unfold calculate_merkle_root
      simp only [List.isEmpty_cons, Bool.false_eq_true, if_false,
        List.map_cons, List.length_cons]
      rw [if_neg (by omega)]
      exact merkleLoop_eq_spec keccak
        (txHash tx1 :: txHash tx2 :: rest.map txHash).length _ le_rfl
        (by simp)

/-! ## aevum-core/src/placeholder.rs -/

/-- `aevum_core::placeholder::AccountState`. -/
structure AccountState where
  nonce : Nat
  balance : Nat
  code_hash : Option Hash256
  storage_root : Option Hash256
  deriving DecidableEq, Repr

/-- `aevum_core::placeholder::ValidatorInfo` (`stake_amount` is a `u128`). -/
structure ValidatorInfo where
  public_key : Hash256
  stake_amount : Nat
  delegator_count : Nat
  is_active : Bool
  activation_epoch : Nat
  deriving DecidableEq, Repr

/-- `ValidatorInfo::new`. -/
def ValidatorInfo.new (public_key : Hash256) (stake_amount : Nat) :
    ValidatorInfo :=
  { public_key := public_key, stake_amount := stake_amount,
    delegator_count := 0, is_active := false, activation_epoch := 0 }

/-- `aevum_core::placeholder::AevumState`.  `validators` is a
`HashMap<Hash256, ValidatorInfo>`; the entry list's order stands for the
map's iteration order, which for a Rust `HashMap` is arbitrary — in
particular it need not be the registration order. -/
structure AevumState where
  accounts : List (Hash256 × AccountState)
  validators : List (Hash256 × ValidatorInfo)
  current_epoch : Nat
  block_height : Nat
  deriving DecidableEq, Repr

/-- `aevum_core::placeholder::DposConfig`. -/
structure DposConfig where
  max_validators : Nat
  min_validator_stake : Nat
  epoch_length : Nat
  unstake_delay : Nat
  deriving DecidableEq, Repr

/-- `DposConfig::default()`: 21 validators, 1000 minimum stake. -/
def DposConfig.default : DposConfig :=
  { max_validators := 21, min_validator_stake := 1000,
    epoch_length := 2160, unstake_delay := 7 }

/-! ## aevum-core/src/consensus.rs — validator election -/

/-- The comparator of `candidates.sort_by(|a, b| b.1.cmp(&a.1))`:
descending by stake. -/
def stakeDescOrder : (Hash256 × Nat) → (Hash256 × Nat) → Prop :=
  fun a b => b.2 ≤ a.2

instance : DecidableRel stakeDescOrder := fun a b => Nat.decLe b.2 a.2

/-- The candidate collection loop of `DposEngine::elect_validators`: the
validator map's entries with at least the minimum stake, as
`(key, stake)` pairs, in iteration order. -/
def electionCandidates (config : DposConfig) (state : AevumState) :
    List (Hash256 × Nat) :=
  (state.validators.filter fun p =>
      decide (config.min_validator_stake ≤ p.2.stake_amount)).map
    fun p => (p.1, p.2.stake_amount)

/-- The candidates after the source's stable `sort_by` (modelled by the
stable `List.insertionSort`; a stable sort's output is unique). -/
def electionRanking (config : DposConfig) (state : AevumState) :
    List (Hash256 × Nat) :=
  List.insertionSort stakeDescOrder (electionCandidates config state)

/-- `DposEngine::elect_validators` (it reads only `self.config`): collect
the candidates, sort by stake descending, keep the first `max_validators`
keys, and fail if nothing is left. -/
def DposEngine.elect_validators (config : DposConfig) (state : AevumState) :
    Except BlockchainError (List Hash256) :=
  let elected :=
    ((electionRanking config state).take config.max_validators).map Prod.fst
  if elected.isEmpty then .error .InvalidBlock else .ok elected

/-- Counterexample for C5 as stated: with `max_validators = 0` the
election errors although the filtered candidate list (one validator with
stake 5000 ≥ 1000) is not empty — the claim's "error iff the filtered
list is empty" is false on the code. -/
theorem C5_counterexample :
    DposEngine.elect_validators
        { max_validators := 0, min_validator_stake := 1000,
          epoch_length := 2160, unstake_delay := 7 }
        { accounts := [], validators := [(oneHash, ValidatorInfo.new oneHash 5000)],
          current_epoch := 0, block_height := 0 } =
      .error .InvalidBlock ∧
    electionCandidates
        { max_validators := 0, min_validator_stake := 1000,
          epoch_length := 2160, unstake_delay := 7 }
        { accounts := [], validators := [(oneHash, ValidatorInfo.new oneHash 5000)],
          current_epoch := 0, block_height := 0 } ≠ [] := by
  exact ⟨by decide, by decide⟩

/-- C5 (amended): `elect_validators` returns the keys of the validators
with `stake_amount ≥ min_validator_stake`, sorted by stake descending —
stably with respect to the validator map's iteration order — and
truncated to the first `max_validators`; it errors exactly when that
truncated list is empty, i.e. when no validator meets the minimum stake
*or* `max_validators = 0`. -/
theorem C5_elect_validators (config : DposConfig) (state : AevumState) :
    (DposEngine.elect_validators config state = .error .InvalidBlock ↔
      electionCandidates config state = [] ∨ config.max_validators = 0) ∧
    (∀ l, DposEngine.elect_validators config state = .ok l →
      l = ((electionRanking config state).take config.max_validators).map
        Prod.fst ∧ l ≠ []) ∧
    List.Sorted stakeDescOrder (electionRanking config state) ∧
    (electionRanking config state).Perm (electionCandidates config state) := by
  haveI : IsTotal (Hash256 × Nat) stakeDescOrder :=
    ⟨fun a b => Nat.le_total b.2 a.2⟩
  haveI : IsTrans (Hash256 × Nat) stakeDescOrder :=
    ⟨fun a b c h1 h2 => Nat.le_trans h2 h1⟩
  refine ⟨?_, ?_, List.sorted_insertionSort stakeDescOrder _,
    List.perm_insertionSort stakeDescOrder _⟩
  · unfold DposEngine.elect_validators
    have hperm : (electionRanking config state).Perm
        (electionCandidates config state) :=
      List.perm_insertionSort stakeDescOrder (electionCandidates config state)
    constructor
    · intro herr
      by_cases hemp :
          (((electionRanking config state).take config.max_validators).map
            (Prod.fst (α := Hash256) (β := Nat))).isEmpty
      · rw [List.isEmpty_iff, List.map_eq_nil_iff, List.take_eq_nil_iff]
          at hemp
        rcases hemp with hmax | hrank
        · exact Or.inr hmax
        · refine Or.inl ?_
          have hlen := hperm.length_eq
          rw [hrank] at hlen
          exact List.length_eq_zero.mp (by simpa using hlen.symm)
      · rw [if_neg (by simpa using hemp)] at herr
        cases herr
    · intro hcase
      have hemp :
          (((electionRanking config state).take config.max_validators).map
            (Prod.fst (α := Hash256) (β := Nat))) = [] := by
        rw [List.map_eq_nil_iff, List.take_eq_nil_iff]
        rcases hcase with hcand | hmax
        · refine Or.inr ?_
          have hlen := hperm.length_eq
          rw [hcand] at hlen
          exact List.length_eq_zero.mp (by simpa using hlen)
        · exact Or.inl hmax
      rw [hemp]
      rfl
  · intro l hok
    unfold DposEngine.elect_validators at hok
    by_cases hemp :
        (((electionRanking config state).take config.max_validators).map
          (Prod.fst (α := Hash256) (β := Nat))).isEmpty
    · rw [if_pos (by simpa using hemp)] at hok
      cases hok
    · rw [if_neg (by simpa using hemp)] at hok
      cases hok
      exact ⟨rfl, by simpa [List.isEmpty_iff] using hemp⟩

/-- Witness for C5: three validators with stakes 5000, 3000 and 1000 under
the default configuration are all elected, in stake order. -/
theorem C5_elect_validators_witness :
    ([List.replicate 32 5, List.replicate 32 3, List.replicate 32 1] :
        List Hash256) =
      ((electionRanking DposConfig.default
        { accounts := [],
          validators :=
            [(List.replicate 32 3, ValidatorInfo.new (List.replicate 32 3) 3000),
             (List.replicate 32 5, ValidatorInfo.new (List.replicate 32 5) 5000),
             (List.replicate 32 1, ValidatorInfo.new (List.replicate 32 1) 1000)],
          current_epoch := 0, block_height := 0 }).take
          DposConfig.default.max_validators).map Prod.fst ∧
    ([List.replicate 32 5, List.replicate 32 3, List.replicate 32 1] :
        List Hash256) ≠ [] :=
  (C5_elect_validators DposConfig.default
    { accounts := [],
      validators :=
        [(List.replicate 32 3, ValidatorInfo.new (List.replicate 32 3) 3000),
         (List.replicate 32 5, ValidatorInfo.new (List.replicate 32 5) 5000),
         (List.replicate 32 1, ValidatorInfo.new (List.replicate 32 1) 1000)],
      current_epoch := 0, block_height := 0 }).2.1
    [List.replicate 32 5, List.replicate 32 3, List.replicate 32 1]
    (by decide)

/-! ## aevum-core/src/transaction.rs — transactions and governance -/

/-- `aevum_core::transaction::AevumTransactionType` (amounts and weights
are `u128`). -/
inductive AevumTransactionType where
  | Transfer («to» : Hash256) (amount : Nat)
  | Stake (amount : Nat)
  | Unstake (amount : Nat)
  | Delegate (validator : Hash256) (amount : Nat)
  | Undelegate (validator : Hash256) (amount : Nat)
  | Vote (proposal_id : Nat) (vote : Bool) (weight : Nat)
  | CreateProposal (title : String) (description : String)
      (voting_period : Nat)
  | ClaimRewards
  deriving DecidableEq, Repr

/-- `aevum_core::transaction::AevumTransaction` (the Rust field `from` is a
Lean keyword and is quoted). -/
structure AevumTransaction where
  «from» : Hash256
  nonce : Nat
  tx_type : AevumTransactionType
  gas_limit : Nat
  gas_price : Nat
  signature : Option (List Nat)
  timestamp : Nat
  deriving DecidableEq, Repr

/-- `AevumTransaction::validate_basic`: non-zero gas limit and price, then
the variant-specific checks — non-zero amounts for `Transfer`, `Stake` and
`Delegate`, non-empty title and description and a non-zero voting period
for `CreateProposal`; the remaining variants need nothing. -/
def AevumTransaction.validate_basic (tx : AevumTransaction) :
    Except BlockchainError Unit := do
  if tx.gas_limit = 0 then
    throw .InvalidTransaction
  if tx.gas_price = 0 then
    throw .InvalidTransaction
  match tx.tx_type with
  | .Transfer _ amount =>
      if amount = 0 then throw .InvalidTransaction else return ()
  | .Stake amount =>
      if amount = 0 then throw .InvalidTransaction else return ()
  | .Delegate _ amount =>
      if amount = 0 then throw .InvalidTransaction else return ()
  | .CreateProposal title description voting_period =>
      if title.isEmpty then throw .InvalidTransaction
      else if description.isEmpty then throw .InvalidTransaction
      else if voting_period = 0 then throw .InvalidTransaction
      else return ()
  | _ => return ()

/-- `AevumTransaction::is_signed`. -/
def AevumTransaction.is_signed (tx : AevumTransaction) : Bool :=
  tx.signature.isSome

/-- `aevum_core::transaction::ProposalStatus`. -/
inductive ProposalStatus where
  | Active | Passed | Rejected | Expired | Executed
  deriving DecidableEq, Repr

/-- `aevum_core::transaction::GovernanceProposal` (`yes_votes`/`no_votes`
are `u128` tallies). -/
structure GovernanceProposal where
  id : Nat
  proposer : Hash256
  title : String
  description : String
  voting_start : Nat
  voting_end : Nat
  yes_votes : Nat
  no_votes : Nat
  voters : List Hash256
  status : ProposalStatus
  deriving DecidableEq, Repr

/-- `GovernanceProposal::new`. -/
def GovernanceProposal.new (id : Nat) (proposer : Hash256) (title : String)
    (description : String) (voting_start : Nat) (voting_period : Nat) :
    GovernanceProposal :=
  { id := id, proposer := proposer, title := title,
    description := description, voting_start := voting_start,
    voting_end := voting_start + voting_period, yes_votes := 0,
    no_votes := 0, voters := [], status := .Active }

/-- `GovernanceProposal::add_vote` takes `&mut self`; the returned pair is
(the `Result`, the proposal after the call) — on the early-return error
the proposal is untouched.  The `u128` tallies wrap modulo `2 ^ 128`
(release-mode `+=`). -/
def GovernanceProposal.add_vote (p : GovernanceProposal) (voter : Hash256)
    (vote : Bool) (weight : Nat) :
    Except BlockchainError Unit × GovernanceProposal :=
  if p.voters.contains voter then (.error .InvalidTransaction, p)
  else
    let p1 :=
      if vote then { p with yes_votes := (p.yes_votes + weight) % 2 ^ 128 }
      else { p with no_votes := (p.no_votes + weight) % 2 ^ 128 }
    (.ok (), { p1 with voters := p1.voters ++ [voter] })

/-- Counterexample for C8 as stated: at a tally of `2 ^ 128 - 1` a fresh
vote of weight 1 wraps the `u128` to 0 — `add_vote` does not literally
"add w to yes_votes" there. -/
theorem C8_counterexample :
    ((GovernanceProposal.new 1 oneHash ("t") ("d") 100 50
        |>.add_vote oneHash true (2 ^ 128 - 1)).2.add_vote
        (Hash256.zero) true 1).2.yes_votes = 0 ∧
    (2 ^ 128 - 1) + 1 ≠ 0 := by
  exact ⟨by decide, by decide⟩

/-- C8 (amended): for every proposal `P` and voter `X`: if `X` is not in
`P.voters`, `add_vote X v w` adds `w` — modulo `2 ^ 128`, the `u128`
wrap — to `yes_votes` when `v` is true and to `no_votes` when `v` is
false (plain addition whenever the tally does not overflow), and appends
`X` to `voters`; if `X` is already in `P.voters`, `add_vote` returns an
`InvalidTransaction` error and leaves the proposal — tallies and voters —
unchanged. -/
theorem C8_add_vote (p : GovernanceProposal) (voter : Hash256) (vote : Bool)
    (weight : Nat) :
    (voter ∈ p.voters →
      p.add_vote voter vote weight = (.error .InvalidTransaction, p)) ∧
    (voter ∉ p.voters →
      (p.add_vote voter vote weight).1 = .ok () ∧
      (p.add_vote voter vote weight).2.yes_votes =
        (if vote then (p.yes_votes + weight) % 2 ^ 128 else p.yes_votes) ∧
      (p.add_vote voter vote weight).2.no_votes =
        (if vote then p.no_votes else (p.no_votes + weight) % 2 ^ 128) ∧
      (p.add_vote voter vote weight).2.voters = p.voters ++ [voter]) ∧
    (voter ∉ p.voters → vote = true → p.yes_votes + weight < 2 ^ 128 →
      (p.add_vote voter vote weight).2.yes_votes = p.yes_votes + weight ∧
      (p.add_vote voter vote weight).2.no_votes = p.no_votes) ∧
    (voter ∉ p.voters → vote = false → p.no_votes + weight < 2 ^ 128 →
      (p.add_vote voter vote weight).2.no_votes = p.no_votes + weight ∧
      (p.add_vote voter vote weight).2.yes_votes = p.yes_votes) := by
  have hc : p.voters.contains voter = true ↔ voter ∈ p.voters := by simp
  refine ⟨?_, ?_, ?_, ?_⟩
  · intro hmem
    unfold GovernanceProposal.add_vote
    rw [if_pos (hc.mpr hmem)]
  · intro hmem
    unfold GovernanceProposal.add_vote
    rw [if_neg (fun hcon => hmem (hc.mp hcon))]
    cases vote <;> simp
  · intro hmem hv hov
    subst hv
    unfold GovernanceProposal.add_vote
    rw [if_neg (fun hcon => hmem (hc.mp hcon))]
    norm_num at hov
    simp [Nat.mod_eq_of_lt hov]
  · intro hmem hv hov
    subst hv
    unfold GovernanceProposal.add_vote
    rw [if_neg (fun hcon => hmem (hc.mp hcon))]
    norm_num at hov
    simp [Nat.mod_eq_of_lt hov]

/-- Witness for C8: on a fresh proposal, a first yes-vote of weight 1000
lands in `yes_votes`, and a repeat vote by the same voter (with `false`
and weight 500) is rejected with the proposal unchanged. -/
theorem C8_add_vote_witness :
    ((GovernanceProposal.new 1 oneHash ("t") ("d") 100 50).add_vote
        oneHash true 1000).2.yes_votes = 0 + 1000 ∧
    ((GovernanceProposal.new 1 oneHash ("t") ("d") 100 50).add_vote
        oneHash true 1000).2.add_vote oneHash false 500 =
      (.error .InvalidTransaction,
        ((GovernanceProposal.new 1 oneHash ("t") ("d") 100 50).add_vote
          oneHash true 1000).2) := by
  constructor
  · exact ((C8_add_vote (GovernanceProposal.new 1 oneHash ("t") ("d") 100 50)
      oneHash true 1000).2.2.1 (by decide) rfl (by decide)).1
  · exact (C8_add_vote
      ((GovernanceProposal.new 1 oneHash ("t") ("d") 100 50).add_vote
        oneHash true 1000).2 oneHash false 500).1 (by decide)

/-! ## aevum-core/src/transaction.rs — the mempool -/

/-- `aevum_core::transaction::AevumMempool`.  `pending` is a
`BTreeMap<Hash256, Vec<AevumTransaction>>` as an association list; only
per-key lookup and the sum of the value lengths are ever observed, neither
of which depends on the entry order. -/
structure AevumMempool where
  pending : List (Hash256 × List AevumTransaction)
  max_size : Nat
  min_gas_price : Nat
  deriving DecidableEq, Repr

/-- `AevumMempool::new`. -/
def AevumMempool.new (max_size : Nat) (min_gas_price : Nat) : AevumMempool :=
  { pending := [], max_size := max_size, min_gas_price := min_gas_price }

/-- Association-list lookup (`BTreeMap::get`). -/
def lookupEntry {α β : Type} [DecidableEq α] (l : List (α × β)) (k : α) :
    Option β :=
  (l.find? fun p => decide (p.1 = k)).map Prod.snd

/-- `self.pending.values().map(|v| v.len()).sum()`. -/
def sumPendingLengths (l : List (Hash256 × List AevumTransaction)) : Nat :=
  (l.map fun p => p.2.length).sum

/-- The comparator of `sender_txs.sort_by_key(|tx| tx.nonce)`: ascending
nonce. -/
def nonceOrder : AevumTransaction → AevumTransaction → Prop :=
  fun a b => a.nonce ≤ b.nonce

instance : DecidableRel nonceOrder := fun a b => Nat.decLe a.nonce b.nonce

/-- `self.pending.entry(tx.from).or_insert_with(Vec::new)`, the `push`,
and the stable `sort_by_key(|tx| tx.nonce)` on the sender's vector (the
stable sort is `List.insertionSort`). -/
def updatePending (k : Hash256) (tx : AevumTransaction) :
    List (Hash256 × List AevumTransaction) →
    List (Hash256 × List AevumTransaction)
  | [] => [(k, List.insertionSort nonceOrder [tx])]
  | (k0, txs) :: rest =>
      if k0 = k then (k, List.insertionSort nonceOrder (txs ++ [tx])) :: rest
      else (k0, txs) :: updatePending k tx rest

/-- `AevumMempool::add_transaction`: basic validation, signature present,
gas price at least the minimum, total pending count strictly below
`max_size`; then the transaction joins its sender's nonce-sorted list. -/
def AevumMempool.add_transaction (m : AevumMempool) (tx : AevumTransaction) :
    Except BlockchainError AevumMempool :=
  match tx.validate_basic with
  | .error e => .error e
  | .ok _ =>
      if !tx.is_signed then .error .InvalidTransaction
      else if tx.gas_price < m.min_gas_price then .error .InvalidTransaction
      else if m.max_size ≤ sumPendingLengths m.pending then
        .error .InvalidTransaction
      else .ok { m with pending := updatePending tx.«from» tx m.pending }

/-- `updatePending` leaves the new transaction's sender mapped to the
nonce-sorted extension of its old list. -/
theorem lookupEntry_updatePending (k : Hash256) (tx : AevumTransaction) :
    ∀ l : List (Hash256 × List AevumTransaction),
    ∃ txs, lookupEntry (updatePending k tx l) k =
      some (List.insertionSort nonceOrder (txs ++ [tx]))
  | [] => ⟨[], by simp [updatePending, lookupEntry]⟩
  | (k0, txs0) :: rest => by
      by_cases hk : k0 = k
      · exact ⟨txs0, by simp [updatePending, hk, lookupEntry, List.find?]⟩
      · obtain ⟨txs, htxs⟩ := lookupEntry_updatePending k tx rest
        refine ⟨txs, ?_⟩
        simp only [updatePending, hk, if_false]
        simpa [lookupEntry, List.find?, hk] using htxs

/-- `updatePending` grows the total pending count by exactly one. -/
theorem sumPendingLengths_updatePending (k : Hash256)
    (tx : AevumTransaction) :
    ∀ l : List (Hash256 × List AevumTransaction),
    sumPendingLengths (updatePending k tx l) = sumPendingLengths l + 1
  | [] => by
      have := (List.perm_insertionSort nonceOrder [tx]).length_eq
      simp [updatePending, sumPendingLengths, this]
  | (k0, txs0) :: rest => by
      by_cases hk : k0 = k
      · have := (List.perm_insertionSort nonceOrder (txs0 ++ [tx])).length_eq
        simp only [updatePending, hk, if_true, sumPendingLengths,
          List.map_cons, List.sum_cons, this, List.length_append,
          List.length_singleton]
        omega
      · have := sumPendingLengths_updatePending k tx rest
        simp only [updatePending, hk, if_false, sumPendingLengths,
          List.map_cons, List.sum_cons] at this ⊢
        omega

/-- C9: `add_transaction` succeeds iff the transaction passes basic
variant validation, is signed, pays at least the minimum gas price, and
the total pending count (summed over all senders) is strictly below
`max_size` — so admission at a total of `max_size - 1` succeeds and at
`max_size` fails — and after a success the sender's pending list is
sorted by nonce ascending, the total having grown by one. -/
theorem C9_add_transaction (m : AevumMempool) (tx : AevumTransaction) :
    ((∃ m2, m.add_transaction tx = .ok m2) ↔
      (tx.validate_basic = .ok () ∧ tx.is_signed = true ∧
       m.min_gas_price ≤ tx.gas_price ∧
       sumPendingLengths m.pending < m.max_size)) ∧
    (∀ m2, m.add_transaction tx = .ok m2 →
      (∃ l, lookupEntry m2.pending tx.«from» = some l ∧
        List.Sorted nonceOrder l) ∧
      sumPendingLengths m2.pending = sumPendingLengths m.pending + 1 ∧
      m2.max_size = m.max_size ∧ m2.min_gas_price = m.min_gas_price) := by
  haveI : IsTotal AevumTransaction nonceOrder :=
    ⟨fun a b => Nat.le_total a.nonce b.nonce⟩
  haveI : IsTrans AevumTransaction nonceOrder :=
    ⟨fun a b c h1 h2 => Nat.le_trans h1 h2⟩
  constructor
  · constructor
    · intro hex
      obtain ⟨m2, hok⟩ := hex
      unfold AevumMempool.add_transaction at hok
      match hvb : tx.validate_basic with
      | .error e => rw [hvb] at hok; cases hok
      | .ok u =>
          rw [hvb] at hok
          by_cases hsig : tx.is_signed
          · by_cases hgas : tx.gas_price < m.min_gas_price
            · simp [hsig, hgas] at hok
            · by_cases hfull : m.max_size ≤ sumPendingLengths m.pending
              · simp [hsig, hgas, hfull] at hok
              · exact ⟨rfl, hsig, by omega, by omega⟩
          · simp [hsig] at hok
    · intro hcond
      obtain ⟨hvb, hsig, hgas, hfull⟩ := hcond
      refine ⟨{ m with pending := updatePending tx.«from» tx m.pending }, ?_⟩
      unfold AevumMempool.add_transaction
      rw [hvb]
      simp [hsig, Nat.not_lt.mpr hgas, Nat.not_le.mpr hfull]
  · intro m2 hok
    unfold AevumMempool.add_transaction at hok
    match hvb : tx.validate_basic with
    | .error e => rw [hvb] at hok; cases hok
    | .ok u =>
        rw [hvb] at hok
        by_cases hsig : tx.is_signed
        · by_cases hgas : tx.gas_price < m.min_gas_price
          · simp [hsig, hgas] at hok
          · by_cases hfull : m.max_size ≤ sumPendingLengths m.pending
            · simp [hsig, hgas, hfull] at hok
            · have hm2 : { m with
                  pending := updatePending tx.«from» tx m.pending } = m2 := by
                simpa [hsig, hgas, hfull] using hok
              subst hm2
              obtain ⟨txs, htxs⟩ :=
                lookupEntry_updatePending tx.«from» tx m.pending
              refine ⟨⟨List.insertionSort nonceOrder (txs ++ [tx]),
                htxs, List.sorted_insertionSort nonceOrder _⟩, ?_, rfl, rfl⟩
              exact sumPendingLengths_updatePending tx.«from» tx m.pending
        · simp [hsig] at hok

/-- A signed 100-wei transfer with nonce 9, already pending. -/
def pendingTx9 : AevumTransaction :=
  { «from» := List.replicate 32 7, nonce := 9,
    tx_type := .Transfer (List.replicate 32 9) 100, gas_limit := 21000,
    gas_price := 10, signature := some [1], timestamp := 0 }

/-- A signed 100-wei transfer with nonce 5, arriving second. -/
def pendingTx5 : AevumTransaction :=
  { «from» := List.replicate 32 7, nonce := 5,
    tx_type := .Transfer (List.replicate 32 9) 100, gas_limit := 21000,
    gas_price := 10, signature := some [1], timestamp := 0 }

/-- A mempool of capacity 2 holding one pending transaction (one below the
cap). -/
def mempoolOneBelowCap : AevumMempool :=
  { pending := [(List.replicate 32 7, [pendingTx9])], max_size := 2,
    min_gas_price := 1 }

/-- Witness for C9: admitting the nonce-5 transaction into the
one-below-capacity mempool succeeds and re-sorts the sender's list to
nonce order `[5, 9]`, with the total count up by one. -/
theorem C9_add_transaction_witness :
    ((∃ l, lookupEntry
        ({ pending := [(List.replicate 32 7, [pendingTx5, pendingTx9])],
           max_size := 2, min_gas_price := 1 } : AevumMempool).pending
        pendingTx5.«from» = some l ∧ List.Sorted nonceOrder l) ∧
      sumPendingLengths
        ({ pending := [(List.replicate 32 7, [pendingTx5, pendingTx9])],
           max_size := 2, min_gas_price := 1 } : AevumMempool).pending =
        sumPendingLengths mempoolOneBelowCap.pending + 1 ∧
      ({ pending := [(List.replicate 32 7, [pendingTx5, pendingTx9])],
         max_size := 2, min_gas_price := 1 } : AevumMempool).max_size =
        mempoolOneBelowCap.max_size ∧
      ({ pending := [(List.replicate 32 7, [pendingTx5, pendingTx9])],
         max_size := 2, min_gas_price := 1 } : AevumMempool).min_gas_price =
        mempoolOneBelowCap.min_gas_price) :=
  (C9_add_transaction mempoolOneBelowCap pendingTx5).2
    { pending := [(List.replicate 32 7, [pendingTx5, pendingTx9])],
      max_size := 2, min_gas_price := 1 }
    (by decide)

end AevumBond
